import Mathlib

/-!
Verification of the periodogram module (timeseries/pergrams.py).

Shallow embedding conventions:
* Python/numpy float values that can only be finite in the scenarios under
  study are modelled as rationals.
* Where a float can become non-finite (division by zero, NaN), values are
  modelled as `Option ℚ`: `some q` is the finite float q, `none` is any
  non-finite float (inf, -inf or NaN).  numpy emits a warning on float
  division by zero but does not raise, so division is total and returns
  `none` on a zero divisor.
* Transcendental arithmetic (sin, cos, sqrt of the normalisation layer) is
  embedded over ℝ.
* The module calls external Fortran kernels (pyscargle.scar2, eebls.eebls,
  np.sqrt applied elementwise) whose source is not part of the repository;
  those are parameters of the embedded functions, constrained only by the
  interface contract the specification states for them (they fill the
  preallocated arrays handed to them).
* A Python `NameError` caused by an unbound global is modelled by an
  explicit table of the names bound at module scope; a function body that
  reads a name absent from that table returns `Except.error PyErr.nameError`.
-/

/-- Errors a call into the module can raise.  The only exception the code
under study can actually produce is a NameError from an unbound global. -/
inductive PyErr where
  | nameError
  deriving DecidableEq, Repr

/-- Names bound at module scope of pergrams.py: the imports of lines
19-31 (including the alias `deeming as fdeeming`) and the functions the
module itself defines.  Neither `logger` nor `startfreq`, `stopfreq`,
`stepfreq` appear here, and none of them is a Python builtin. -/
def pergramsModuleNames : List String :=
  ["np", "cos", "sin", "pi",
   "make_parallel", "parallel_pergram", "defaults_pergram",
   "pyscargle", "pyclean", "pyGLS", "pyKEP", "multih", "fdeeming", "eebls",
   "windowfunction", "scargle", "deeming", "DFTpower", "FFTpower",
   "FFTpowerdensity", "weightedpower", "gls", "clean",
   "schwarzenberg_czerny", "pdm", "pdm_py", "bls", "kepler"]

/-- Python `int()` applied to a float: truncation toward zero. -/
def truncQ (q : ℚ) : ℤ :=
  if 0 ≤ q then ⌊q⌋ else -⌊-q⌋

/-- numpy `fmod(x, 1.0)`: x minus its truncation toward zero (the result
keeps the sign of x). -/
def fmodOne (x : ℚ) : ℚ := x - truncQ x

/-- numpy `ptp`: max minus min of the entries (the time span T). -/
def ptp (l : List ℚ) : ℚ :=
  l.foldl max (l.headD 0) - l.foldl min (l.headD 0)

/-- numpy `var` (ddof = 0): mean of the squared deviations from the mean. -/
def varQ (l : List ℚ) : ℚ :=
  ((l.map (fun x => (x - l.sum / (l.length : ℚ)) ^ 2)).sum) / (l.length : ℚ)

/-- Float multiplication on possibly non-finite values: any non-finite
operand yields a non-finite result. -/
def fmul (a b : Option ℚ) : Option ℚ :=
  match a, b with
  | some x, some y => some (x * y)
  | _, _ => none

/-- Float division on possibly non-finite values: a zero divisor yields a
non-finite result (inf or NaN in numpy; numpy warns but does not raise). -/
def fdiv (a b : Option ℚ) : Option ℚ :=
  match a, b with
  | some x, some y => if y = 0 then none else some (x / y)
  | _, _ => none

/-- Python truthiness of a float: only positive and negative 0.0 are
falsy; every other float, including inf and NaN, is truthy. -/
def pyFalsy (a : Option ℚ) : Bool :=
  match a with
  | some q => decide (q = 0)
  | none => false

/-- Line 130 of pergrams.py, `if not s1[0]: s1[0]=0.` : the first entry of
the statistic array is replaced by 0.0 when it is falsy. -/
def fixFirst (s : List (Option ℚ)) : List (Option ℚ) :=
  match s with
  | [] => []
  | x :: r => (if pyFalsy x then some 0 else x) :: r

/-- Lines 117 of pergrams.py (scargle) : `nf = int((fn-f0)/df+0.001)+1`,
the number of frequency samples; np.zeros needs a nonnegative size, hence
the final toNat (the claims only use grids where the value is positive). -/
def scargleNf (f0 fn df : ℚ) : ℕ :=
  (truncQ ((fn - f0) / df + 1 / 1000) + 1).toNat

/-- Lines 131-137 of pergrams.py (scargle normalisation) over possibly
non-finite floats.  `sqrtF` models the external elementwise `np.sqrt`;
`fact = np.sqrt(4./n)`.  A `norm` matching no branch (such as "power")
leaves the statistic unchanged. -/
def normalizeF (sqrtF : Option ℚ → Option ℚ) (norm : String)
    (s1 : List (Option ℚ)) (n : ℕ) (T : ℚ) (signal : List ℚ) :
    List (Option ℚ) :=
  if norm = "distribution" then s1.map (fun x => fdiv x (some (varQ signal)))
  else if norm = "amplitude" then
    s1.map (fun x => fmul (sqrtF (some (4 / (n : ℚ)))) (sqrtF x))
  else if norm = "density" then
    s1.map (fun x =>
      fmul (fmul (fmul (sqrtF (some (4 / (n : ℚ)))) (sqrtF (some (4 / (n : ℚ))))) x) (some T))
  else s1

/-- Lines 114-139 of pergrams.py: the scargle pipeline.  `scar2` is the
external Fortran kernel `pyscargle.scar2` (signal, times, f0, df and the
size nf of the preallocated work arrays; it returns the filled frequency
and raw statistic arrays).  The weighted branch executes
`logger.debug('Weighed scargle')` (line 126) before calling `scar3`; the
module scope binds no name `logger`, so that branch raises NameError
before any computation (the if-branch below is therefore unreachable and
its value is junk). -/
def scargle (scar2 : List ℚ → List ℚ → ℚ → ℚ → ℕ → List (Option ℚ) × List (Option ℚ))
    (sqrtF : Option ℚ → Option ℚ) (times signal : List ℚ) (f0 fn df : ℚ)
    (norm : String) (weights : Option (List ℚ)) :
    Except PyErr (List (Option ℚ) × List (Option ℚ)) :=
  let n := times.length
  let T := ptp times
  let nf := scargleNf f0 fn df
  match weights with
  | none =>
      let res := scar2 signal times f0 df nf
      Except.ok (res.1, normalizeF sqrtF norm (fixFirst res.2) n T signal)
  | some _ =>
      if "logger" ∈ pergramsModuleNames then Except.ok ([], [])
      else Except.error PyErr.nameError

/-- Projection of a call result: `some` when the call returned normally. -/
def resultOk {α : Type} : Except PyErr α → Option α
  | Except.ok a => some a
  | Except.error _ => none

/-- Lines 196-231 of pergrams.py: DFTpower.  After `Ntime = len(time)`
(line 219), line 220 evaluates `(stopfreq-startfreq)/stepfreq`; the
parameters are named f0, fn, df, and none of startfreq, stopfreq, stepfreq
is bound at module scope or as a builtin, so the function raises NameError
on every call (the then-branch below is unreachable junk). -/
def DFTpower (time signal : List ℚ) (f0 fn df : ℚ) : Except PyErr (List ℚ) :=
  if "startfreq" ∈ pergramsModuleNames ∧ "stopfreq" ∈ pergramsModuleNames ∧
     "stepfreq" ∈ pergramsModuleNames then
    Except.ok []
  else Except.error PyErr.nameError

/-- numpy `linspace(a, b, num)` with endpoint=True (num points from a to b
inclusive); old numpy truncated a float num via int(), which callers of
this definition perform with truncQ. -/
def linspace (a b : ℚ) (num : ℕ) : List ℚ :=
  if num = 0 then []
  else if num = 1 then [a]
  else (List.range num).map (fun (i : ℕ) => a + (i : ℚ) * ((b - a) / ((num : ℚ) - 1)))

/-- Line 742 of pergrams.py (bls) : `if f0<2./T: f0=2./T`, the effective
start frequency. -/
def blsF0eff (times : List ℚ) (f0 : ℚ) : ℚ :=
  if f0 < 2 / ptp times then 2 / ptp times else f0

/-- Line 741 of pergrams.py (bls) : `nf = (fn-f0)/df` is a float computed
from the requested f0; linspace and the Fortran kernel truncate it via
int(). -/
def blsNum (f0 fn df : ℚ) : ℕ :=
  (truncQ ((fn - f0) / df)).toNat

/-- Line 746 of pergrams.py (bls) : `frequencies = np.linspace(f0,fn,nf)`
with the effective f0 and the truncated float nf. -/
def blsFrequencies (times : List ℚ) (f0 fn df : ℚ) : List ℚ :=
  linspace (blsF0eff times f0) fn (blsNum f0 fn df)

/-- Lines 734-750 of pergrams.py: the bls pipeline.  `eeblsK` is the
external Fortran kernel `eebls.eebls`; it receives the effective start
frequency, the step, the truncated sample count and the box parameters
nb, qmi, qma, and returns the per-frequency power array. -/
def bls (eeblsK : List ℚ → List ℚ → ℚ → ℚ → ℕ → ℕ → ℚ → ℚ → List (Option ℚ))
    (times signal : List ℚ) (f0 fn df : ℚ) (nb : ℕ) (qmi qma : ℚ) :
    List ℚ × List (Option ℚ) :=
  (blsFrequencies times f0 fn df,
   eeblsK times signal (blsF0eff times f0) df (blsNum f0 fn df) nb qmi qma)

/-- numpy `arange(a, b, step)` for positive step: the k*step offsets from a
that stay below b, i.e. ceil((b-a)/step) samples. -/
def arange (a b step : ℚ) : List ℚ :=
  (List.range (Int.ceil ((b - a) / step)).toNat).map (fun (k : ℕ) => a + (k : ℚ) * step)

/-- Line 634 of pergrams.py (pdm_py) : phases
`fmod((time - time[0]) * f + D/2*time**2, 1.0)`. -/
def pdmPhase (time : List ℚ) (f D : ℚ) : List ℚ :=
  time.map (fun t => fmodOne ((t - time.headD 0) * f + D / 2 * t ^ 2))

/-- Lines 642-643 of pergrams.py (pdm_py) : the (bin, cover) index pairs,
k running over Nbin (outer loop) and the cover index over Ncover (inner
loop). -/
def pdmPairs (Nbin Ncover : ℕ) : List (ℕ × ℕ) :=
  (List.range Nbin).flatMap (fun k => (List.range Ncover).map (fun m => (k, m)))

/-- Lines 654-657 of pergrams.py (pdm_py) : `np.compress` of the signal on
the phase mask; when the bin wraps (left not below right) the complement
mask is used. -/
def pdmBinData (phase signal : List ℚ) (left right : ℚ) : List ℚ :=
  if left < right then
    ((phase.zip signal).filter (fun p => decide (left ≤ p.1 ∧ p.1 < right))).map Prod.snd
  else
    ((phase.zip signal).filter (fun p => decide (¬ (right ≤ p.1 ∧ p.1 < left)))).map Prod.snd

/-- Lines 649-657 of pergrams.py (pdm_py) : the data selected in each of
the Nbin*Ncover shifted bins, with `binsize = 1/Nbin` and
`covershift = 1/(Nbin*Ncover)`. -/
def pdmBinsData (phase signal : List ℚ) (Nbin Ncover : ℕ) : List (List ℚ) :=
  (pdmPairs Nbin Ncover).map (fun kn =>
    pdmBinData phase signal
      (fmodOne ((kn.1 : ℚ) * (1 / (Nbin : ℚ)) + (kn.2 : ℚ) * (1 / ((Nbin : ℚ) * (Ncover : ℚ)))))
      (fmodOne (((kn.1 : ℚ) + 1) * (1 / (Nbin : ℚ)) + (kn.2 : ℚ) * (1 / ((Nbin : ℚ) * (Ncover : ℚ))))))

/-- Lines 661-662 of pergrams.py (pdm_py) : a nonempty bin contributes
`(count - 1) * var(bindata)`; an empty bin contributes nothing (it is
counted in Nempty instead). -/
def pdmContrib (b : List ℚ) : ℚ :=
  if b.length ≠ 0 then ((b.length : ℚ) - 1) * varQ b else 0

/-- Lines 631-668 of pergrams.py (pdm_py) : the theta statistic at one
frequency, before the final global division by var(signal):
the bin contributions summed, divided by
`Ncover*Ntime - (Ncover*Nbin - Nempty)`. -/
def pdmThetaAt (time signal : List ℚ) (Nbin Ncover : ℕ) (D f : ℚ) : ℚ :=
  let bins := pdmBinsData (pdmPhase time f D) signal Nbin Ncover
  (bins.map pdmContrib).sum /
    ((Ncover : ℚ) * (time.length : ℚ) -
      ((Ncover : ℚ) * (Nbin : ℚ) - (((bins.filter (fun b => decide (b.length = 0))).length : ℚ))))

/-- Lines 592-676 of pergrams.py: pdm_py.  The frequency grid is
`np.arange(f0, fn+df, df)`; each theta value is finally divided by
var(signal) (line 672). -/
def pdm_py (time signal : List ℚ) (f0 fn df : ℚ) (Nbin Ncover : ℕ) (D : ℚ) :
    List ℚ × List ℚ :=
  let freq := arange f0 (fn + df) df
  (freq, freq.map (fun f => pdmThetaAt time signal Nbin Ncover D f / varQ signal))

/-- numpy `var` over ℝ (ddof = 0): mean of the squared deviations. -/
noncomputable def varR (l : List ℝ) : ℝ :=
  ((l.map (fun x => (x - l.sum / (l.length : ℝ)) ^ 2)).sum) / (l.length : ℝ)

/-- Lines 131-137 of pergrams.py (scargle normalisation) over exact reals:
`fact = np.sqrt(4./n)`; distribution divides by var(signal), amplitude
maps x to fact*sqrt(x), density maps x to fact^2*x*T, anything else (in
particular "power") leaves the statistic unchanged. -/
noncomputable def scargleNormR (norm : String) (s1 : List ℝ) (n : ℕ) (T : ℝ)
    (signal : List ℝ) : List ℝ :=
  let fact := Real.sqrt (4 / (n : ℝ))
  if norm = "distribution" then s1.map (fun x => x / varR signal)
  else if norm = "amplitude" then s1.map (fun x => fact * Real.sqrt x)
  else if norm = "density" then s1.map (fun x => fact ^ 2 * x * T)
  else s1

/-- Lines 181-188 of pergrams.py (deeming normalisation): the same
normalisation block, duplicated in the source. -/
noncomputable def deemingNormR (norm : String) (s1 : List ℝ) (n : ℕ) (T : ℝ)
    (signal : List ℝ) : List ℝ :=
  let fact := Real.sqrt (4 / (n : ℝ))
  if norm = "distribution" then s1.map (fun x => x / varR signal)
  else if norm = "amplitude" then s1.map (fun x => fact * Real.sqrt x)
  else if norm = "density" then s1.map (fun x => fact ^ 2 * x * T)
  else s1

/-- Lines 33-60 of pergrams.py: windowfunction.  Per frequency f the
kernel is the squared cosine sum plus the squared sine sum over the time
points, and the whole array is divided by Ntime^2. -/
noncomputable def windowfunction (time freq : List ℝ) : List ℝ :=
  freq.map (fun f =>
    (((time.map (fun t => Real.cos (2 * Real.pi * f * t))).sum) ^ 2 +
     ((time.map (fun t => Real.sin (2 * Real.pi * f * t))).sum) ^ 2) /
    ((time.length : ℝ)) ^ 2)

/-- Sum of g over the zipped (time, signal, weight) triples; the numpy
code forms elementwise products of equal-length arrays (lines 355-362). -/
noncomputable def tripleSum (time signal weight : List ℝ) (g : ℝ → ℝ → ℝ → ℝ) : ℝ :=
  ((time.zip (signal.zip weight)).map (fun p => g p.1 p.2.1 p.2.2)).sum

/-- Line 357 of pergrams.py: `a11 = np.sum(weight*sine*sine)`. -/
noncomputable def wpA11 (time signal weight : List ℝ) (f : ℝ) : ℝ :=
  tripleSum time signal weight (fun t _ w =>
    w * Real.sin (2 * Real.pi * f * t) * Real.sin (2 * Real.pi * f * t))

/-- Line 358 of pergrams.py: `a12 = np.sum(weight*sine*cosine)` (line 359
sets a21 = a12). -/
noncomputable def wpA12 (time signal weight : List ℝ) (f : ℝ) : ℝ :=
  tripleSum time signal weight (fun t _ w =>
    w * Real.sin (2 * Real.pi * f * t) * Real.cos (2 * Real.pi * f * t))

/-- Line 360 of pergrams.py: `a22 = np.sum(weight*cosine*cosine)`. -/
noncomputable def wpA22 (time signal weight : List ℝ) (f : ℝ) : ℝ :=
  tripleSum time signal weight (fun t _ w =>
    w * Real.cos (2 * Real.pi * f * t) * Real.cos (2 * Real.pi * f * t))

/-- Line 361 of pergrams.py: `b1 = np.sum(weight*signal*sine)`. -/
noncomputable def wpB1 (time signal weight : List ℝ) (f : ℝ) : ℝ :=
  tripleSum time signal weight (fun t s w => w * s * Real.sin (2 * Real.pi * f * t))

/-- Line 362 of pergrams.py: `b2 = np.sum(weight*signal*cosine)`. -/
noncomputable def wpB2 (time signal weight : List ℝ) (f : ℝ) : ℝ :=
  tripleSum time signal weight (fun t s w => w * s * Real.cos (2 * Real.pi * f * t))

/-- Line 363 of pergrams.py: `denominator = a11*a22-a12*a21` with a21 =
a12. -/
noncomputable def wpDenom (time signal weight : List ℝ) (f : ℝ) : ℝ :=
  wpA11 time signal weight f * wpA22 time signal weight f -
    wpA12 time signal weight f * wpA12 time signal weight f

/-- Line 364 of pergrams.py: `A = (b1*a22-b2*a12)/denominator`. -/
noncomputable def wpA (time signal weight : List ℝ) (f : ℝ) : ℝ :=
  (wpB1 time signal weight f * wpA22 time signal weight f -
    wpB2 time signal weight f * wpA12 time signal weight f) / wpDenom time signal weight f

/-- Line 365 of pergrams.py: `B = (b2*a11-b1*a21)/denominator` with a21 =
a12. -/
noncomputable def wpB (time signal weight : List ℝ) (f : ℝ) : ℝ :=
  (wpB2 time signal weight f * wpA11 time signal weight f -
    wpB1 time signal weight f * wpA12 time signal weight f) / wpDenom time signal weight f

/-- Lines 330-370 of pergrams.py: weightedpower.  Per frequency: the
Cramer solution of the 2x2 weighted normal equations and the statistic
A^2+B^2 when f is nonzero, the mean of the signal when f = 0. -/
noncomputable def weightedpower (time signal weight freq : List ℝ) : List ℝ :=
  freq.map (fun f =>
    if f ≠ 0 then
      wpA time signal weight f ^ 2 + wpB time signal weight f ^ 2
    else signal.sum / (signal.length : ℝ))

/-- Concrete stand-in for the external elementwise np.sqrt used when a
witness or counterexample instantiates the scargle pipeline; none of the
scenarios settled here enters the amplitude branch, so its value is never
consumed. -/
def sqrtNone : Option ℚ → Option ℚ := fun _ => none

/-- Modelled from the spec: a concrete instance of the missing external
Fortran kernel pyscargle.scar2 (only its interface contract is specified:
it fills the nf preallocated entries of both arrays); this instance fills
the raw statistic with the finite truthy float 1.0. -/
def demoKernel : List ℚ → List ℚ → ℚ → ℚ → ℕ → List (Option ℚ) × List (Option ℚ) :=
  fun _ _ _ _ nf => (List.replicate nf (some 37), List.replicate nf (some 1))

/-- Modelled from the spec: a concrete instance of the missing external
Fortran kernel pyscargle.scar2 whose raw statistic has a falsy (0.0)
first entry and 2.0 elsewhere. -/
def zeroHeadKernel : List ℚ → List ℚ → ℚ → ℚ → ℕ → List (Option ℚ) × List (Option ℚ) :=
  fun _ _ _ _ nf =>
    (List.replicate nf (some 37), some 0 :: List.replicate (nf - 1) (some 2))

/-- Modelled from the spec: a concrete instance of the missing external
Fortran kernel eebls.eebls (only its interface contract is specified); it
fills the nf requested entries. -/
def eeblsDemo : List ℚ → List ℚ → ℚ → ℚ → ℕ → ℕ → ℚ → ℚ → List (Option ℚ) :=
  fun _ _ _ _ nf _ _ _ => List.replicate nf (some 0)

theorem sum_map_one (l : List ℝ) : (l.map (fun _ => (1 : ℝ))).sum = l.length := by
  induction l with
  | nil => simp
  | cons a t ih =>
      simp only [List.map_cons, List.sum_cons, ih, List.length_cons]
      push_cast
      ring

theorem sum_map_zero (l : List ℝ) : (l.map (fun _ => (0 : ℝ))).sum = 0 := by
  induction l with
  | nil => simp
  | cons a t ih => simp [ih]

theorem fixFirst_length (s : List (Option ℚ)) : (fixFirst s).length = s.length := by
  cases s <;> simp [fixFirst]

theorem normalizeF_length (sqrtF : Option ℚ → Option ℚ) (norm : String)
    (s1 : List (Option ℚ)) (n : ℕ) (T : ℚ) (signal : List ℚ) :
    (normalizeF sqrtF norm s1 n T signal).length = s1.length := by
  unfold normalizeF
  split_ifs <;> simp

theorem normalizeF_distribution (sqrtF : Option ℚ → Option ℚ)
    (s1 : List (Option ℚ)) (n : ℕ) (T : ℚ) (signal : List ℚ) :
    normalizeF sqrtF "distribution" s1 n T signal =
      s1.map (fun x => fdiv x (some (varQ signal))) := by
  unfold normalizeF
  rw [if_pos rfl]

theorem linspace_length (a b : ℚ) (num : ℕ) : (linspace a b num).length = num := by
  unfold linspace
  split_ifs with h0 h1
  · simp [h0]
  · simp [h1]
  · rw [List.length_map, List.length_range]

theorem linspace_headD (a b : ℚ) (num : ℕ) (h : num ≠ 0) :
    (linspace a b num).headD 0 = a := by
  unfold linspace
  split_ifs with h0 h1
  · exact absurd h0 h
  · simp
  · obtain ⟨k, hk⟩ := Nat.exists_eq_succ_of_ne_zero h0
    rw [hk]
    simp [List.range_succ_eq_map]

theorem scargleNf_eq (f0 fn df : ℚ) (hf : f0 < fn) (hdf : 0 < df) :
    scargleNf f0 fn df = (⌊(fn - f0) / df + 1 / 1000⌋).toNat + 1 := by
  have hq : (0 : ℚ) ≤ (fn - f0) / df + 1 / 1000 := by
    have h1 : (0 : ℚ) < (fn - f0) / df := div_pos (sub_pos.mpr hf) hdf
    linarith
  have h0 : (0 : ℤ) ≤ ⌊(fn - f0) / df + 1 / 1000⌋ := Int.floor_nonneg.mpr hq
  unfold scargleNf truncQ
  rw [if_pos hq]
  omega

theorem blsNum_eq (f0 fn df : ℚ) (hf : f0 < fn) (hdf : 0 < df) :
    blsNum f0 fn df = (⌊(fn - f0) / df⌋).toNat := by
  have hq : (0 : ℚ) ≤ (fn - f0) / df := le_of_lt (div_pos (sub_pos.mpr hf) hdf)
  unfold blsNum truncQ
  rw [if_pos hq]

/-- C1 (amended): with a complete grid satisfying fn above f0 and positive
df, and the external kernels filling the preallocated arrays, the scargle
estimator returns frequency and statistic arrays whose common length is
floor((fn-f0)/df + 0.001) + 1; bls instead returns arrays of the length
floor((fn-f0)/df) (its line 741 computes nf without the 0.001 guard and
without the final +1, and its frequency array is a linspace over that
truncated count). -/
theorem claim1_grid_lengths
    (scar2 : List ℚ → List ℚ → ℚ → ℚ → ℕ → List (Option ℚ) × List (Option ℚ))
    (sqrtF : Option ℚ → Option ℚ)
    (eeblsK : List ℚ → List ℚ → ℚ → ℚ → ℕ → ℕ → ℚ → ℚ → List (Option ℚ))
    (times signal : List ℚ) (f0 fn df : ℚ) (norm : String)
    (nb : ℕ) (qmi qma : ℚ)
    (h1 : (scar2 signal times f0 df (scargleNf f0 fn df)).1.length = scargleNf f0 fn df)
    (h2 : (scar2 signal times f0 df (scargleNf f0 fn df)).2.length = scargleNf f0 fn df)
    (h3 : (eeblsK times signal (blsF0eff times f0) df (blsNum f0 fn df) nb qmi qma).length =
      blsNum f0 fn df)
    (hf : f0 < fn) (hdf : 0 < df) :
    (∃ fr st, scargle scar2 sqrtF times signal f0 fn df norm none = Except.ok (fr, st) ∧
       fr.length = (⌊(fn - f0) / df + 1 / 1000⌋).toNat + 1 ∧
       st.length = (⌊(fn - f0) / df + 1 / 1000⌋).toNat + 1) ∧
    (bls eeblsK times signal f0 fn df nb qmi qma).1.length = (⌊(fn - f0) / df⌋).toNat ∧
    (bls eeblsK times signal f0 fn df nb qmi qma).2.length = (⌊(fn - f0) / df⌋).toNat := by
  have hnf := scargleNf_eq f0 fn df hf hdf
  have hbn := blsNum_eq f0 fn df hf hdf
  refine ⟨⟨_, _, rfl, ?_, ?_⟩, ?_, ?_⟩
  · rw [h1, hnf]
  · rw [normalizeF_length, fixFirst_length, h2, hnf]
  · have hl : (bls eeblsK times signal f0 fn df nb qmi qma).1.length = blsNum f0 fn df := by
      show (blsFrequencies times f0 fn df).length = _
      unfold blsFrequencies
      exact linspace_length _ _ _
    rw [hl, hbn]
  · have hl : (bls eeblsK times signal f0 fn df nb qmi qma).2.length = blsNum f0 fn df := h3
    rw [hl, hbn]

/-- C1 witness: the grid f0=0, fn=1, df=1/10 on the time points [0,10]
instantiates the amended claim, with the concrete kernel instances that
fill the requested arrays. -/
theorem claim1_grid_lengths_witness :
    (0 : ℚ) < 1 ∧ (0 : ℚ) < 1 / 10 ∧
    ((∃ fr st,
        scargle demoKernel sqrtNone [0, 10] [0, 0] 0 1 (1 / 10) "power" none =
          Except.ok (fr, st) ∧
        fr.length = (⌊((1 : ℚ) - 0) / (1 / 10) + 1 / 1000⌋).toNat + 1 ∧
        st.length = (⌊((1 : ℚ) - 0) / (1 / 10) + 1 / 1000⌋).toNat + 1) ∧
     (bls eeblsDemo [0, 10] [0, 0] 0 1 (1 / 10) 50 (1 / 200) (3 / 4)).1.length =
       (⌊((1 : ℚ) - 0) / (1 / 10)⌋).toNat ∧
     (bls eeblsDemo [0, 10] [0, 0] 0 1 (1 / 10) 50 (1 / 200) (3 / 4)).2.length =
       (⌊((1 : ℚ) - 0) / (1 / 10)⌋).toNat) :=
  ⟨by norm_num, by norm_num,
   claim1_grid_lengths demoKernel sqrtNone eeblsDemo [0, 10] [0, 0] 0 1 (1 / 10) "power"
     50 (1 / 200) (3 / 4)
     (by simp [demoKernel]) (by simp [demoKernel]) (by simp [eeblsDemo])
     (by norm_num) (by norm_num)⟩

/-- C1 counterexample: on the grid f0=0, fn=1, df=1/10 (time points
[0,10]), bls returns 10 samples while the claimed common length
floor((fn-f0)/df + 0.001) + 1 is 11, so the claim as stated is false for
the bls estimator. -/
theorem claim1_grid_lengths_cex :
    ¬ (((bls eeblsDemo [0, 10] [0, 0] 0 1 (1 / 10) 50 (1 / 200) (3 / 4)).1.length =
        (bls eeblsDemo [0, 10] [0, 0] 0 1 (1 / 10) 50 (1 / 200) (3 / 4)).2.length) ∧
       ((bls eeblsDemo [0, 10] [0, 0] 0 1 (1 / 10) 50 (1 / 200) (3 / 4)).1.length =
        (⌊((1 : ℚ) - 0) / (1 / 10) + 1 / 1000⌋).toNat + 1)) := by
  have h1 : (bls eeblsDemo [0, 10] [0, 0] 0 1 (1 / 10) 50 (1 / 200) (3 / 4)).1.length = 10 := by
    show (blsFrequencies [0, 10] 0 1 (1 / 10)).length = 10
    unfold blsFrequencies
    rw [linspace_length]
    norm_num [blsNum, truncQ] <;> omega
  have hfl : (⌊((1 : ℚ) - 0) / (1 / 10) + 1 / 1000⌋).toNat + 1 = 11 := by
    norm_num <;> omega
  rintro ⟨-, hB⟩
  rw [h1, hfl] at hB
  omega

/-- C4 (amended): invoking scargle with normalization distribution on a
zero-variance signal does not raise any error: the call returns normally
and every entry of the returned statistic array is the non-finite result
of a division by zero variance (the module defines no DegenerateInputError
and checks nothing before dividing on line 133). -/
theorem claim4_distribution_no_error
    (scar2 : List ℚ → List ℚ → ℚ → ℚ → ℕ → List (Option ℚ) × List (Option ℚ))
    (sqrtF : Option ℚ → Option ℚ) (times signal : List ℚ) (f0 fn df : ℚ)
    (hv : varQ signal = 0) :
    ∃ fr st, scargle scar2 sqrtF times signal f0 fn df "distribution" none =
        Except.ok (fr, st) ∧
      ∀ x ∈ st, x = (none : Option ℚ) := by
  refine ⟨_, _, rfl, ?_⟩
  intro x hx
  rw [normalizeF_distribution, hv] at hx
  simp only [List.mem_map] at hx
  obtain ⟨y, -, rfl⟩ := hx
  cases y <;> simp [fdiv]

/-- C4 witness: the constant signal [5,5,5] has zero variance and the
amended claim instantiates there. -/
theorem claim4_distribution_no_error_witness :
    varQ [5, 5, 5] = 0 ∧
    (∃ fr st,
       scargle demoKernel sqrtNone [0, 1, 2] [5, 5, 5] 0 (1 / 10) (1 / 10)
           "distribution" none = Except.ok (fr, st) ∧
       ∀ x ∈ st, x = (none : Option ℚ)) := by
  have hv : varQ [5, 5, 5] = 0 := by norm_num [varQ]
  exact ⟨hv, claim4_distribution_no_error demoKernel sqrtNone [0, 1, 2] [5, 5, 5]
    0 (1 / 10) (1 / 10) hv⟩

/-- C4 counterexample: for the concrete constant signal [5,5,5] (zero
variance) with normalization distribution, the call returns normally
(resultOk is some, no exception of any kind is raised, and nothing named
DegenerateInputError exists in the module) and the returned statistic
array consists of non-finite values, refuting the claim as stated. -/
theorem claim4_distribution_cex :
    resultOk (scargle demoKernel sqrtNone [0, 1, 2] [5, 5, 5] 0 (1 / 10) (1 / 10)
        "distribution" none) =
      some (List.replicate 2 (some (37 : ℚ)), [none, none]) := by
  have hnf : scargleNf 0 (1 / 10) (1 / 10) = 2 := by
    norm_num [scargleNf, truncQ] <;> omega
  have hv : varQ [5, 5, 5] = 0 := by norm_num [varQ]
  show resultOk (Except.ok
      ((demoKernel [5, 5, 5] [0, 1, 2] 0 (1 / 10) (scargleNf 0 (1 / 10) (1 / 10))).1,
       normalizeF sqrtNone "distribution"
         (fixFirst (demoKernel [5, 5, 5] [0, 1, 2] 0 (1 / 10)
           (scargleNf 0 (1 / 10) (1 / 10))).2)
         ([0, 1, 2] : List ℚ).length (ptp [0, 1, 2]) [5, 5, 5])) = _
  rw [hnf, normalizeF_distribution, hv]
  simp [demoKernel, resultOk, fixFirst, pyFalsy, fdiv, List.replicate]

/-- C8 (amended): when the first raw statistic value is falsy (that is,
equal to 0.0: Python float truthiness makes no other float falsy, NaN
included), line 130 replaces it by 0.0 before normalization, and under
the pass-through power normalization the first returned entry is that
forced 0.0; the first returned entry is not NaN-free in general, since
the distribution normalization of a zero-variance signal maps it to 0/0
(see the counterexample). -/
theorem claim8_first_falsy_forced
    (scar2 : List ℚ → List ℚ → ℚ → ℚ → ℕ → List (Option ℚ) × List (Option ℚ))
    (sqrtF : Option ℚ → Option ℚ) (times signal : List ℚ) (f0 fn df : ℚ)
    (fr : List (Option ℚ)) (x : Option ℚ) (rest : List (Option ℚ))
    (hk : scar2 signal times f0 df (scargleNf f0 fn df) = (fr, x :: rest))
    (hx : pyFalsy x = true) :
    scargle scar2 sqrtF times signal f0 fn df "power" none =
      Except.ok (fr, some 0 :: rest) := by
  have hpow : ∀ s : List (Option ℚ),
      normalizeF sqrtF "power" s times.length (ptp times) signal = s := by
    intro s
    unfold normalizeF
    rw [if_neg (by decide), if_neg (by decide), if_neg (by decide)]
  show Except.ok ((scar2 signal times f0 df (scargleNf f0 fn df)).1,
      normalizeF sqrtF "power"
        (fixFirst (scar2 signal times f0 df (scargleNf f0 fn df)).2)
        times.length (ptp times) signal) = _
  rw [hk, hpow]
  simp [fixFirst, hx]

/-- C8 witness: a kernel whose raw statistic starts with the falsy 0.0
instantiates the amended claim; the returned first entry is the forced
0.0. -/
theorem claim8_first_falsy_forced_witness :
    scargle zeroHeadKernel sqrtNone [0, 1] [3, 3] 0 (1 / 2) (1 / 2) "power" none =
      Except.ok (List.replicate 2 (some (37 : ℚ)), some 0 :: List.replicate 1 (some 2)) := by
  have hnf : scargleNf 0 (1 / 2) (1 / 2) = 2 := by
    norm_num [scargleNf, truncQ] <;> omega
  refine claim8_first_falsy_forced zeroHeadKernel sqrtNone [0, 1] [3, 3] 0 (1 / 2) (1 / 2)
    (List.replicate 2 (some 37)) (some 0) (List.replicate 1 (some 2)) ?_ (by decide)
  show zeroHeadKernel [3, 3] [0, 1] 0 (1 / 2) (scargleNf 0 (1 / 2) (1 / 2)) = _
  rw [hnf]
  rfl

/-- C8 counterexample: with a zero-variance signal and distribution
normalization, the first raw statistic value 0.0 is falsy and is forced
to 0.0, yet the first entry of the returned array is NaN (0.0/0.0): it is
neither 0.0 in the returned array nor NaN-free, refuting both parts of
the claim as stated. -/
theorem claim8_first_nan_cex :
    resultOk (scargle zeroHeadKernel sqrtNone [0, 1] [3, 3] 0 (1 / 2) (1 / 2)
        "distribution" none) =
      some (List.replicate 2 (some (37 : ℚ)), [none, none]) := by
  have hnf : scargleNf 0 (1 / 2) (1 / 2) = 2 := by
    norm_num [scargleNf, truncQ] <;> omega
  have hv : varQ [3, 3] = 0 := by norm_num [varQ]
  show resultOk (Except.ok
      ((zeroHeadKernel [3, 3] [0, 1] 0 (1 / 2) (scargleNf 0 (1 / 2) (1 / 2))).1,
       normalizeF sqrtNone "distribution"
         (fixFirst (zeroHeadKernel [3, 3] [0, 1] 0 (1 / 2)
           (scargleNf 0 (1 / 2) (1 / 2))).2)
         ([0, 1] : List ℚ).length (ptp [0, 1]) [3, 3])) = _
  rw [hnf, normalizeF_distribution, hv]
  simp [zeroHeadKernel, resultOk, fixFirst, pyFalsy, fdiv, List.replicate]

theorem map_getD_real (f : ℝ → ℝ) (l : List ℝ) (i : ℕ) (hi : i < l.length) :
    (l.map f).getD i 0 = f (l.getD i 0) := by
  have h1 : l[i]? = some l[i] := List.getElem?_eq_getElem hi
  rw [List.getD_eq_getElem?_getD, List.getD_eq_getElem?_getD, List.getElem?_map, h1]
  simp

theorem cramer2x2 (a11 a12 a22 b1 b2 : ℝ) (hd : a11 * a22 - a12 * a12 ≠ 0) :
    a11 * ((b1 * a22 - b2 * a12) / (a11 * a22 - a12 * a12)) +
      a12 * ((b2 * a11 - b1 * a12) / (a11 * a22 - a12 * a12)) = b1 ∧
    a12 * ((b1 * a22 - b2 * a12) / (a11 * a22 - a12 * a12)) +
      a22 * ((b2 * a11 - b1 * a12) / (a11 * a22 - a12 * a12)) = b2 := by
  constructor <;> field_simp <;> ring

/-- C5: weightedpower returns, at each nonzero frequency, the statistic
A^2 + B^2 where (A, B) is the Cramer solution of the 2x2 weighted normal
equations (denominator a11*a22 - a12*a21 with a21 = a12): whenever that
denominator is nonzero, (A, B) satisfies both normal equations; at a zero
frequency it returns the mean of the signal. -/
theorem claim5_weightedpower (time signal weight freq : List ℝ) (i : ℕ)
    (hs : signal.length = time.length) (hw : weight.length = time.length)
    (hi : i < freq.length) :
    (freq.getD i 0 = 0 →
      (weightedpower time signal weight freq).getD i 0 =
        signal.sum / (signal.length : ℝ)) ∧
    (freq.getD i 0 ≠ 0 →
      (weightedpower time signal weight freq).getD i 0 =
        wpA time signal weight (freq.getD i 0) ^ 2 +
          wpB time signal weight (freq.getD i 0) ^ 2 ∧
      (wpDenom time signal weight (freq.getD i 0) ≠ 0 →
        wpA11 time signal weight (freq.getD i 0) * wpA time signal weight (freq.getD i 0) +
          wpA12 time signal weight (freq.getD i 0) * wpB time signal weight (freq.getD i 0) =
          wpB1 time signal weight (freq.getD i 0) ∧
        wpA12 time signal weight (freq.getD i 0) * wpA time signal weight (freq.getD i 0) +
          wpA22 time signal weight (freq.getD i 0) * wpB time signal weight (freq.getD i 0) =
          wpB2 time signal weight (freq.getD i 0))) := by
  have hval := map_getD_real
    (fun f => if f ≠ 0 then
        wpA time signal weight f ^ 2 + wpB time signal weight f ^ 2
      else signal.sum / (signal.length : ℝ)) freq i hi
  constructor
  · intro h0
    rw [weightedpower, hval, h0]
    simp
  · intro hne
    constructor
    · rw [weightedpower, hval]
      simp only []
      rw [if_pos hne]
    · intro hd
      unfold wpDenom at hd
      have h := cramer2x2 (wpA11 time signal weight (freq.getD i 0))
        (wpA12 time signal weight (freq.getD i 0))
        (wpA22 time signal weight (freq.getD i 0))
        (wpB1 time signal weight (freq.getD i 0))
        (wpB2 time signal weight (freq.getD i 0)) hd
      constructor
      · unfold wpA wpB wpDenom
        exact h.1
      · unfold wpA wpB wpDenom
        exact h.2

/-- C5 witness: time points [0, 1/4], signal [1, 2], unit weights, single
trial frequency 1: the design matrix is the identity, the Cramer solution
is (2, 1), and the returned statistic is A^2 + B^2. -/
theorem claim5_weightedpower_witness :
    ((1 : ℝ) ≠ 0 ∧ wpDenom [0, (1 : ℝ) / 4] [1, 2] [1, 1] 1 ≠ 0) ∧
    (weightedpower [0, (1 : ℝ) / 4] [1, 2] [1, 1] [1]).getD 0 0 =
      wpA [0, (1 : ℝ) / 4] [1, 2] [1, 1] 1 ^ 2 + wpB [0, (1 : ℝ) / 4] [1, 2] [1, 1] 1 ^ 2 ∧
    (wpA11 [0, (1 : ℝ) / 4] [1, 2] [1, 1] 1 * wpA [0, (1 : ℝ) / 4] [1, 2] [1, 1] 1 +
       wpA12 [0, (1 : ℝ) / 4] [1, 2] [1, 1] 1 * wpB [0, (1 : ℝ) / 4] [1, 2] [1, 1] 1 =
       wpB1 [0, (1 : ℝ) / 4] [1, 2] [1, 1] 1 ∧
     wpA12 [0, (1 : ℝ) / 4] [1, 2] [1, 1] 1 * wpA [0, (1 : ℝ) / 4] [1, 2] [1, 1] 1 +
       wpA22 [0, (1 : ℝ) / 4] [1, 2] [1, 1] 1 * wpB [0, (1 : ℝ) / 4] [1, 2] [1, 1] 1 =
       wpB2 [0, (1 : ℝ) / 4] [1, 2] [1, 1] 1) := by
  have harg : (2 : ℝ) * Real.pi * (1 / 4) = Real.pi / 2 := by ring
  have s4 : Real.sin (2 * Real.pi * ((1 : ℝ) / 4)) = 1 := by
    rw [harg]
    exact Real.sin_pi_div_two
  have c4 : Real.cos (2 * Real.pi * ((1 : ℝ) / 4)) = 0 := by
    rw [harg]
    exact Real.cos_pi_div_two
  have ha11 : wpA11 [0, (1 : ℝ) / 4] [1, 2] [1, 1] 1 = 1 := by
    unfold wpA11 tripleSum
    norm_num [s4]
  have ha12 : wpA12 [0, (1 : ℝ) / 4] [1, 2] [1, 1] 1 = 0 := by
    unfold wpA12 tripleSum
    norm_num [s4, c4]
  have ha22 : wpA22 [0, (1 : ℝ) / 4] [1, 2] [1, 1] 1 = 1 := by
    unfold wpA22 tripleSum
    norm_num [c4]
  have hd : wpDenom [0, (1 : ℝ) / 4] [1, 2] [1, 1] 1 ≠ 0 := by
    unfold wpDenom
    rw [ha11, ha12, ha22]
    norm_num
  have h := claim5_weightedpower [0, (1 : ℝ) / 4] [1, 2] [1, 1] [1] 0
    (by simp) (by simp) (by simp)
  have hne : ([(1 : ℝ)].getD 0 0) ≠ 0 := by norm_num
  obtain ⟨-, h1⟩ := h
  obtain ⟨heq, hcr⟩ := h1 hne
  exact ⟨⟨by norm_num, hd⟩, heq, hcr hd⟩

theorem sumMapMul {α : Type} (c : ℚ) (f : α → ℚ) (l : List α) :
    (l.map (fun x => c * f x)).sum = c * (l.map f).sum := by
  induction l with
  | nil => simp
  | cons a t ih =>
      simp only [List.map_cons, List.sum_cons, ih]
      ring

theorem sum_map_id_mul (c : ℚ) (l : List ℚ) :
    (l.map (fun x => c * x)).sum = c * l.sum := by
  induction l with
  | nil => simp
  | cons a t ih =>
      simp only [List.map_cons, List.sum_cons, ih]
      ring

theorem zipFilterSnd_map (p : ℚ → Bool) (g : ℚ → ℚ) (xs ys : List ℚ) :
    ((xs.zip (ys.map g)).filter (fun q => p q.1)).map Prod.snd =
      (((xs.zip ys).filter (fun q => p q.1)).map Prod.snd).map g := by
  induction xs generalizing ys with
  | nil => simp
  | cons a xs ih =>
      cases ys with
      | nil => simp
      | cons b ys =>
          by_cases h : p a
          · simp [List.filter_cons, h, ih]
          · simp [List.filter_cons, h, ih]

theorem pdmBinData_map (phase signal : List ℚ) (c l r : ℚ) :
    pdmBinData phase (signal.map (fun x => c * x)) l r =
      (pdmBinData phase signal l r).map (fun x => c * x) := by
  unfold pdmBinData
  split_ifs with h
  · exact zipFilterSnd_map (fun a => decide (l ≤ a ∧ a < r)) _ _ _
  · exact zipFilterSnd_map (fun a => decide (¬ (r ≤ a ∧ a < l))) _ _ _

theorem varQ_smul (c : ℚ) (l : List ℚ) :
    varQ (l.map (fun x => c * x)) = c ^ 2 * varQ l := by
  unfold varQ
  rw [List.length_map, sum_map_id_mul, List.map_map]
  have hcomp : ((fun x => (x - c * l.sum / (l.length : ℚ)) ^ 2) ∘ fun x => c * x) =
      (fun x => c ^ 2 * ((x - l.sum / (l.length : ℚ)) ^ 2)) := by
    funext x
    simp only [Function.comp]
    rw [mul_div_assoc]
    ring
  rw [hcomp, sumMapMul, mul_div_assoc]

theorem pdmContrib_map (c : ℚ) (b : List ℚ) :
    pdmContrib (b.map (fun x => c * x)) = c ^ 2 * pdmContrib b := by
  unfold pdmContrib
  rw [List.length_map, varQ_smul]
  split_ifs with h
  · ring
  · ring

theorem pdmBinsData_map (phase signal : List ℚ) (c : ℚ) (Nbin Ncover : ℕ) :
    pdmBinsData phase (signal.map (fun x => c * x)) Nbin Ncover =
      (pdmBinsData phase signal Nbin Ncover).map (fun b => b.map (fun x => c * x)) := by
  unfold pdmBinsData
  rw [List.map_map]
  exact congrArg (fun f => (pdmPairs Nbin Ncover).map f)
    (funext fun kn => pdmBinData_map phase signal c _ _)

theorem pdmThetaAt_smul (time signal : List ℚ) (Nbin Ncover : ℕ) (D f c : ℚ) :
    pdmThetaAt time (signal.map (fun x => c * x)) Nbin Ncover D f =
      c ^ 2 * pdmThetaAt time signal Nbin Ncover D f := by
  simp only [pdmThetaAt]
  rw [pdmBinsData_map, List.map_map]
  have h1 : (pdmContrib ∘ fun b => b.map (fun x => c * x)) =
      (fun b => c ^ 2 * pdmContrib b) := funext fun b => pdmContrib_map c b
  rw [h1, sumMapMul]
  have h2 : (((pdmBinsData (pdmPhase time f D) signal Nbin Ncover).map
        (fun b => b.map (fun x => c * x))).filter
          (fun b => decide (b.length = 0))).length =
      ((pdmBinsData (pdmPhase time f D) signal Nbin Ncover).filter
        (fun b => decide (b.length = 0))).length := by
    rw [List.filter_map, List.length_map]
    have hp : ((fun (b : List ℚ) => decide (b.length = 0)) ∘
        fun (b : List ℚ) => b.map (fun x => c * x)) =
        (fun (b : List ℚ) => decide (b.length = 0)) := by
      funext b
      simp
    rw [hp]
  rw [h2, mul_div_assoc]

/-- C6: pdm_py is scale invariant: for nonzero c and a signal of nonzero
variance, multiplying the signal by c leaves the returned (frequency,
theta) pair unchanged, because phases and bin masks depend only on the
times, each bin contribution scales by c^2 and the global division by
var(signal) scales by c^2 as well. -/
theorem claim6_pdm_scale_invariant (time signal : List ℚ) (f0 fn df D c : ℚ)
    (Nbin Ncover : ℕ) (hc : c ≠ 0) (hv : varQ signal ≠ 0) :
    pdm_py time (signal.map (fun x => c * x)) f0 fn df Nbin Ncover D =
      pdm_py time signal f0 fn df Nbin Ncover D := by
  unfold pdm_py
  refine congrArg (Prod.mk (arange f0 (fn + df) df)) ?_
  have hfun : (fun f => pdmThetaAt time (signal.map (fun x => c * x)) Nbin Ncover D f /
      varQ (signal.map (fun x => c * x))) =
      (fun f => pdmThetaAt time signal Nbin Ncover D f / varQ signal) := by
    funext f
    rw [pdmThetaAt_smul, varQ_smul]
    exact mul_div_mul_left _ _ (pow_ne_zero 2 hc)
  rw [hfun]

/-- C6 witness: the nonzero scale 2 and the signal [1,3,1,3] of variance 1
instantiate the scale invariance at the grid f0 = fn = df = 1 with
Nbin = 2, Ncover = 1, D = 0. -/
theorem claim6_pdm_scale_invariant_witness :
    ((2 : ℚ) ≠ 0 ∧ varQ [1, 3, 1, 3] ≠ 0) ∧
    pdm_py [0, 1 / 4, 1 / 2, 3 / 4] ([1, 3, 1, 3].map (fun x => 2 * x)) 1 1 1 2 1 0 =
      pdm_py [0, 1 / 4, 1 / 2, 3 / 4] [1, 3, 1, 3] 1 1 1 2 1 0 := by
  have hv : varQ [1, 3, 1, 3] ≠ 0 := by norm_num [varQ]
  exact ⟨⟨by norm_num, hv⟩,
    claim6_pdm_scale_invariant [0, 1 / 4, 1 / 2, 3 / 4] [1, 3, 1, 3] 1 1 1 0 2 2 1
      (by norm_num) hv⟩

/-- C9: for every invocation of the classical (scargle) estimator with a
non-None weights argument, the call raises a NameError before producing
any result: the weighted branch (line 126) reads the name logger, which
is bound neither at module scope nor as a builtin, so no weighted
classical periodogram can be returned through this interface. -/
theorem claim9_weighted_nameerror
    (scar2 : List ℚ → List ℚ → ℚ → ℚ → ℕ → List (Option ℚ) × List (Option ℚ))
    (sqrtF : Option ℚ → Option ℚ) (times signal : List ℚ) (f0 fn df : ℚ)
    (norm : String) (w : List ℚ) :
    scargle scar2 sqrtF times signal f0 fn df norm (some w) =
      Except.error PyErr.nameError := rfl

/-- C10: for every input, calling DFTpower raises a NameError and never
returns a power spectrum: its body reads startfreq, stopfreq and stepfreq
(line 220), none of which is bound anywhere (the parameters are named f0,
fn, df), so the function is unusable at the public interface. -/
theorem claim10_DFTpower_nameerror (time signal : List ℚ) (f0 fn df : ℚ) :
    DFTpower time signal f0 fn df = Except.error PyErr.nameError := rfl

/-- C3: for every non-empty time array and every frequency array,
windowfunction returns at each frequency f the value
((sum of cos(2 pi f t))^2 + (sum of sin(2 pi f t))^2) / Ntime^2, and
windowfunction(times, [0.0]) equals [1.0]. -/
theorem claim3_windowfunction (time freq : List ℝ) (h : time ≠ []) :
    windowfunction time freq = freq.map (fun f =>
      (((time.map (fun t => Real.cos (2 * Real.pi * f * t))).sum) ^ 2 +
       ((time.map (fun t => Real.sin (2 * Real.pi * f * t))).sum) ^ 2) /
      ((time.length : ℝ)) ^ 2) ∧
    windowfunction time [0] = [1] := by
  constructor
  · rfl
  · have hlen : time.length ≠ 0 := by
      simpa [List.length_eq_zero] using h
    have hn : (time.length : ℝ) ≠ 0 := Nat.cast_ne_zero.mpr hlen
    have hc : (time.map (fun t => Real.cos (2 * Real.pi * 0 * t))).sum = time.length := by
      simp only [mul_zero, zero_mul, Real.cos_zero]
      exact sum_map_one time
    have hs : (time.map (fun t => Real.sin (2 * Real.pi * 0 * t))).sum = 0 := by
      simp only [mul_zero, zero_mul, Real.sin_zero]
      exact sum_map_zero time
    simp only [windowfunction, List.map_cons, List.map_nil, hc, hs]
    rw [List.cons_eq_cons]
    refine ⟨?_, rfl⟩
    field_simp

/-- C3 witness: the single time point 0 is a non-empty time array, and the
theorem instantiates there; in particular windowfunction [0] [0] = [1]. -/
theorem claim3_windowfunction_witness :
    ([(0 : ℝ)] ≠ ([] : List ℝ)) ∧ windowfunction [(0 : ℝ)] [0] = [1] :=
  ⟨by simp, (claim3_windowfunction [(0 : ℝ)] [0] (by simp)).2⟩

/-- C2: the normalisation layer shared by scargle and deeming: power
leaves the raw statistic S unchanged, amplitude maps it elementwise to
sqrt(4/n)*sqrt(S), density to (4/n)*S*T, and distribution divides it
elementwise by the variance of the signal. -/
theorem claim2_normalization (S : List ℝ) (n : ℕ) (T : ℝ) (signal : List ℝ) :
    scargleNormR "power" S n T signal = S ∧
    scargleNormR "amplitude" S n T signal =
      S.map (fun x => Real.sqrt (4 / (n : ℝ)) * Real.sqrt x) ∧
    scargleNormR "density" S n T signal =
      S.map (fun x => 4 / (n : ℝ) * x * T) ∧
    scargleNormR "distribution" S n T signal =
      S.map (fun x => x / varR signal) ∧
    deemingNormR "power" S n T signal = S ∧
    deemingNormR "amplitude" S n T signal =
      S.map (fun x => Real.sqrt (4 / (n : ℝ)) * Real.sqrt x) ∧
    deemingNormR "density" S n T signal =
      S.map (fun x => 4 / (n : ℝ) * x * T) ∧
    deemingNormR "distribution" S n T signal =
      S.map (fun x => x / varR signal) := by
  have h4 : (0 : ℝ) ≤ 4 / (n : ℝ) := by positivity
  refine ⟨?_, ?_, ?_, ?_, ?_, ?_, ?_, ?_⟩
  · unfold scargleNormR
    rw [if_neg (by decide), if_neg (by decide), if_neg (by decide)]
  · unfold scargleNormR
    rw [if_neg (by decide), if_pos rfl]
  · unfold scargleNormR
    rw [if_neg (by decide), if_neg (by decide), if_pos rfl]
    simp only [Real.sq_sqrt h4]
  · unfold scargleNormR
    rw [if_pos rfl]
  · unfold deemingNormR
    rw [if_neg (by decide), if_neg (by decide), if_neg (by decide)]
  · unfold deemingNormR
    rw [if_neg (by decide), if_pos rfl]
  · unfold deemingNormR
    rw [if_neg (by decide), if_neg (by decide), if_pos rfl]
    simp only [Real.sq_sqrt h4]
  · unfold deemingNormR
    rw [if_pos rfl]

/-- C7: bls never scans below two cycles per baseline: the effective start
frequency is at least 2/T, equals exactly 2/T whenever the requested f0
is below 2/T, and is the first entry of the returned frequency array. -/
theorem claim7_bls_f0 (times : List ℚ) (f0 fn df : ℚ) (h : 0 < ptp times) :
    2 / ptp times ≤ blsF0eff times f0 ∧
    (f0 < 2 / ptp times → blsF0eff times f0 = 2 / ptp times) ∧
    (0 < blsNum f0 fn df →
      (blsFrequencies times f0 fn df).headD 0 = blsF0eff times f0) := by
  refine ⟨?_, ?_, ?_⟩
  · unfold blsF0eff
    split_ifs with hlt
    · exact le_refl _
    · exact le_of_not_lt hlt
  · intro hlt
    unfold blsF0eff
    rw [if_pos hlt]
  · intro hnum
    unfold blsFrequencies
    exact linspace_headD _ _ _ (by omega)

/-- C7 witness: times [0,1] has span 1, the requested f0 = 1 is below
2/T = 2, and the effective start frequency (also the grid head) is 2. -/
theorem claim7_bls_f0_witness :
    (0 : ℚ) < ptp [0, 1] ∧
    (2 / ptp [0, 1] ≤ blsF0eff [0, 1] 1 ∧
     ((1 : ℚ) < 2 / ptp [0, 1] → blsF0eff [0, 1] 1 = 2 / ptp [0, 1]) ∧
     (0 < blsNum 1 5 1 →
       (blsFrequencies [0, 1] 1 5 1).headD 0 = blsF0eff [0, 1] 1)) := by
  have h : (0 : ℚ) < ptp [0, 1] := by norm_num [ptp, max_def, min_def]
  exact ⟨h, claim7_bls_f0 [0, 1] 1 5 1 h⟩
